import Mathlib

/-!
# Blink Tac Toe — game-engine embedding

A shallow embedding of the game-state engine of `src/components/blink-tac-toe.tsx`
(a "vanishing tic-tac-toe": each player keeps at most the 3 most-recently-placed
marks on a 3×3 board).  React component state (the `gameState` record and the
`players` array) is modelled as an explicit state record; the random emoji draw
(`Math.floor(Math.random() * n)`) is modelled by an injected natural number taken
modulo the list length, so the draw's support is exactly the source's.
JavaScript truthiness of a board cell (`board[a] && ...`) is modelled explicitly:
an out-of-range index yields `undefined` (here: `none` from `List.getElem?`), and
the empty string is falsy.
-/

/-- The fixed emoji catalog, `emojiCategories` in the source
(an object literal mapped to an association list, in source order). -/
def emojiCategories : List (String × List String) :=
  [ ("animals", ["🐶", "🐱", "🐵", "🐰", "🦊", "🐻", "🐼", "🐨", "🦁", "🐯"]),
    ("food", ["🍕", "🍔", "🍟", "🍩", "🍦", "🍭", "🍫", "🍿", "🥐", "🍪"]),
    ("sports", ["⚽", "🏀", "🏈", "🎾", "🏐", "🏉", "🎱", "🏓", "⚾", "🥎"]),
    ("tech", ["💻", "📱", "🖥️", "⌨️", "🖱️", "🎮", "🎧", "📷", "🕹️", "🔋"]),
    ("space", ["🚀", "🛸", "🌌", "🌠", "🪐", "👾", "👽", "🌑", "🌕", "☄️"]) ]

/-- `emojiCategories[category]` — the symbol list bound to a category name.
A name outside the catalog yields the empty list (such a lookup is never
reached in the component, which only ever stores catalog keys). -/
def categoryEmojis (cat : String) : List String :=
  match emojiCategories.find? (fun p => p.1 == cat) with
  | some p => p.2
  | none => []

/-- A placed mark: the source's `{ position, emoji }` record inside
`Player.placedEmojis`. -/
structure PlacedEmoji where
  position : Nat
  emoji : String
deriving DecidableEq, Repr

/-- The source's `Player` record. -/
structure Player where
  id : Nat
  category : String
  emojis : List String
  placedEmojis : List PlacedEmoji
deriving DecidableEq, Repr

/-- The source's `GameState` record; `null` becomes `none`. -/
structure GameState where
  board : List (Option String)
  currentPlayer : Nat
  winner : Option Nat
  winningLine : Option (List Nat)
  gameStarted : Bool
  player1Category : String
  player2Category : String
deriving DecidableEq, Repr

/-- The source's `initialGameState`. -/
def initialGameState : GameState :=
  { board := List.replicate 9 none
    currentPlayer := 1
    winner := none
    winningLine := none
    gameStarted := false
    player1Category := "tech"
    player2Category := "space" }

/-- The whole component state: the `gameState` record together with the
`players` array (the two React `useState` cells that the engine logic reads
and writes). -/
structure ComponentState where
  gameState : GameState
  players : List Player
deriving DecidableEq, Repr

/-- The source's `winningCombinations`: 3 rows, 3 columns, 2 diagonals,
in source order (each `[a, b, c]` as a triple, matching the
`const [a, b, c] = combo` destructuring). -/
def winningCombinations : List (Nat × Nat × Nat) :=
  [ (0, 1, 2), (3, 4, 5), (6, 7, 8),
    (0, 3, 6), (1, 4, 7), (2, 5, 8),
    (0, 4, 8), (2, 4, 6) ]

/-- Result of `checkWinner`: the `{ winner, winningLine }` object. -/
structure WinResult where
  winner : Option Nat
  winningLine : Option (List Nat)
deriving DecidableEq, Repr

/-- JavaScript truthiness of `board[i]`: in range, non-null, and a non-empty
string.  (Out of range, `board[i]` is `undefined`, which is falsy.) -/
def cellTruthy (board : List (Option String)) (i : Nat) : Bool :=
  match board[i]? with
  | some (some e) => e ≠ ""
  | _ => false

/-- `board[i]!` under the truthiness guard: the cell's string, defaulting to
the empty string when absent (the default is never reached under the guard). -/
def cellEmoji (board : List (Option String)) (i : Nat) : String :=
  match board[i]? with
  | some (some e) => e
  | _ => ""

/-- The source's `isPlayer1Win` / `isPlayer2Win` expression for one triple:
all three occupying symbols are members of the category's symbol list. -/
def isCategoryWin (board : List (Option String)) (cat : String)
    (a b c : Nat) : Bool :=
  (categoryEmojis cat).contains (cellEmoji board a) &&
  (categoryEmojis cat).contains (cellEmoji board b) &&
  (categoryEmojis cat).contains (cellEmoji board c)

/-- One triple's full win test for one category: the three cells are truthy
and all three symbols belong to the category (the loop body's guard combined
with the membership test). -/
def tripleWinsFor (board : List (Option String)) (cat : String)
    (a b c : Nat) : Bool :=
  (cellTruthy board a && cellTruthy board b && cellTruthy board c) &&
  isCategoryWin board cat a b c

/-- The loop of the source's `checkWinner` over the remaining combinations:
for each `[a, b, c]`, if all three cells are truthy, test player 1's category
first, then player 2's; return on the first match. -/
def checkWinnerAux (board : List (Option String)) (cat1 cat2 : String) :
    List (Nat × Nat × Nat) → WinResult
  | [] => ⟨none, none⟩
  | (a, b, c) :: rest =>
    if cellTruthy board a && cellTruthy board b && cellTruthy board c then
      if isCategoryWin board cat1 a b c then ⟨some 1, some [a, b, c]⟩
      else if isCategoryWin board cat2 a b c then ⟨some 2, some [a, b, c]⟩
      else checkWinnerAux board cat1 cat2 rest
    else checkWinnerAux board cat1 cat2 rest

/-- The source's `checkWinner(board)` (the two bound categories, read from
`gameState` in the source, are passed explicitly). -/
def checkWinner (board : List (Option String)) (cat1 cat2 : String) :
    WinResult :=
  checkWinnerAux board cat1 cat2 winningCombinations

/-- The source's `getRandomEmoji(playerId)`: `"❓"` when the player is missing
or its emoji list is empty, otherwise a drawn element of the list.  The random
index `Math.floor(Math.random() * length)` is injected as `randomIndex` and
reduced modulo the length, so its support is exactly `[0, length)`. -/
def getRandomEmoji (players : List Player) (playerId : Nat)
    (randomIndex : Nat) : String :=
  match players.find? (fun p => p.id == playerId) with
  | none => "❓"
  | some player =>
    if player.emojis.length = 0 then "❓"
    else player.emojis.getD (randomIndex % player.emojis.length) "❓"

/-- The per-player body of the `players.map` in `handleCellClick`, for the
player whose id matches: append the new `{ position, emoji }` record; if the
queue now exceeds 3, clear the oldest record's board cell and drop that
record (the source mutates `newBoard` inside the map callback; here the board
is threaded explicitly). -/
def applyPlacement (q : List PlacedEmoji) (board : List (Option String))
    (i : Nat) (em : String) : List PlacedEmoji × List (Option String) :=
  let newPlaced := q ++ [⟨i, em⟩]
  if newPlaced.length > 3 then
    (newPlaced.tail, board.set (newPlaced.headD ⟨0, ""⟩).position none)
  else (newPlaced, board)

/-- The `players.map` of `handleCellClick` with the `newBoard` mutation made
explicit: the board is threaded left to right through the players. -/
def updatePlayersAndBoard : List Player → List (Option String) →
    Nat → Nat → String → List Player × List (Option String)
  | [], board, _, _, _ => ([], board)
  | p :: ps, board, pid, i, em =>
    if p.id == pid then
      let r := applyPlacement p.placedEmojis board i em
      let rest := updatePlayersAndBoard ps r.2 pid i em
      ({ p with placedEmojis := r.1 } :: rest.1, rest.2)
    else
      let rest := updatePlayersAndBoard ps board pid i em
      (p :: rest.1, rest.2)

/-- The early-return guard of `handleCellClick`, in positive form: the click
proceeds iff the game is started, the cell is in range and strictly `null`
(for an out-of-range index `board[index]` is `undefined`, and
`undefined !== null`, so such clicks are also rejected), and there is no
winner. -/
def canClick (s : ComponentState) (index : Nat) : Prop :=
  s.gameState.gameStarted = true ∧
  s.gameState.board[index]? = some none ∧
  s.gameState.winner = none

instance (s : ComponentState) (index : Nat) : Decidable (canClick s index) :=
  inferInstanceAs (Decidable (_ ∧ _ ∧ _))

/-- The source's `handleCellClick(index)`: place a drawn emoji, apply the
FIFO vanishing rule, run win detection on the post-vanish board, and always
switch `currentPlayer` to the other player.  Illegal clicks return the state
unchanged. -/
def handleCellClick (s : ComponentState) (index : Nat)
    (randomIndex : Nat) : ComponentState :=
  if canClick s index then
    let currentPlayerId := s.gameState.currentPlayer
    let emoji := getRandomEmoji s.players currentPlayerId randomIndex
    let newBoard := s.gameState.board.set index (some emoji)
    let upd := updatePlayersAndBoard s.players newBoard currentPlayerId index emoji
    let winResult := checkWinner upd.2 s.gameState.player1Category
      s.gameState.player2Category
    { gameState :=
        { s.gameState with
          board := upd.2
          currentPlayer := if currentPlayerId == 1 then 2 else 1
          winner := winResult.winner
          winningLine := winResult.winningLine }
      players := upd.1 }
  else s

/-- The source's `startGame()`: clear board, player 1 to move, clear winner
and winning line, mark started; the two selected categories are carried over
unchanged (no validation of any kind is performed). -/
def startGame (gs : GameState) : GameState :=
  { gs with
    board := List.replicate 9 none
    currentPlayer := 1
    winner := none
    winningLine := none
    gameStarted := true }

/-- The `useEffect` that fires once the game starts: each player is rebound
to its category with a shuffled copy of the category's emoji list and an
empty `placedEmojis` queue.  The shuffle is modelled by injecting the two
resulting lists (`em1`, `em2`). -/
def initializePlayers (gs : GameState) (em1 em2 : List String) : List Player :=
  [ ⟨1, gs.player1Category, em1, []⟩, ⟨2, gs.player2Category, em2, []⟩ ]

/-- The source's `resetGame()`: back to `initialGameState` except that the
two currently selected categories are kept, and the players array is reset
with those categories, empty emoji lists and empty queues. -/
def resetGame (s : ComponentState) : ComponentState :=
  { gameState :=
      { initialGameState with
        player1Category := s.gameState.player1Category
        player2Category := s.gameState.player2Category }
    players :=
      [ ⟨1, s.gameState.player1Category, [], []⟩,
        ⟨2, s.gameState.player2Category, [], []⟩ ] }

/-- A freshly started game: `startGame` on an arbitrary prior `gameState`
followed by the player-initialization effect. -/
def startedState (gs : GameState) (em1 em2 : List String) : ComponentState :=
  { gameState := startGame gs
    players := initializePlayers (startGame gs) em1 em2 }

/-- States reachable from some started game by any sequence of cell clicks
(with arbitrary injected random draws). -/
inductive Reachable : ComponentState → Prop
  | start (gs : GameState) (em1 em2 : List String) :
      Reachable (startedState gs em1 em2)
  | step (s : ComponentState) (index randomIndex : Nat) :
      Reachable s → Reachable (handleCellClick s index randomIndex)

/-- `true` iff cell `i` of the board holds a symbol. -/
def isOccupied (board : List (Option String)) (i : Nat) : Bool :=
  match board[i]? with
  | some (some _) => true
  | _ => false

/-- All 9 cells hold a symbol. -/
def boardFull (board : List (Option String)) : Bool :=
  (List.range 9).all (fun i => isOccupied board i)

/-- Number of occupied board cells recorded in a player's placement queue —
the cells on the board that belong to that player. -/
def playerOccupiedCount (board : List (Option String)) (p : Player) : Nat :=
  ((List.range 9).filter (fun i =>
    isOccupied board i && (p.placedEmojis.map PlacedEmoji.position).contains i)).length

/-- The engine invariant maintained by every click on a started game:
the players array keeps its two-element shape; the board has 9 cells; each
queue has at most 3 records; queue positions are pairwise distinct across
both players; every queued record points at a board cell holding exactly its
emoji; every occupied board cell is pointed at by some queued record; and the
player to move is player 1 or player 2. -/
def EngineInv (s : ComponentState) : Prop :=
  ∃ c1 e1 q1 c2 e2 q2,
    s.players = [⟨1, c1, e1, q1⟩, ⟨2, c2, e2, q2⟩] ∧
    s.gameState.board.length = 9 ∧
    q1.length ≤ 3 ∧ q2.length ≤ 3 ∧
    ((q1 ++ q2).map PlacedEmoji.position).Nodup ∧
    (∀ pe ∈ q1 ++ q2, s.gameState.board[pe.position]? = some (some pe.emoji)) ∧
    (∀ i e, s.gameState.board[i]? = some (some e) →
      ∃ pe ∈ q1 ++ q2, pe.position = i) ∧
    (s.gameState.currentPlayer = 1 ∨ s.gameState.currentPlayer = 2)

/-- A reference play from a fresh game with identity shuffles: player 1 is
on "tech", player 2 on "space"; all draws use random index 0. -/
def demo0 : ComponentState :=
  startedState initialGameState (categoryEmojis "tech") (categoryEmojis "space")

/-- Player 1 places 💻 at cell 0. -/
def demo1 : ComponentState := handleCellClick demo0 0 0

/-- Player 2 places 🚀 at cell 8. -/
def demo2 : ComponentState := handleCellClick demo1 8 0

/-- Player 1 places 💻 at cell 1. -/
def demo3 : ComponentState := handleCellClick demo2 1 0

/-- Player 2 places 🚀 at cell 7. -/
def demo4 : ComponentState := handleCellClick demo3 7 0

/-- Player 1 places 💻 at cell 2, completing the top row. -/
def demo5 : ComponentState := handleCellClick demo4 2 0

/-- A game state with both players on the "tech" category. -/
def gsEqualCats : GameState :=
  { initialGameState with player2Category := "tech" }

/-- A mid-session state with non-default categories selected. -/
def sNonDefault : ComponentState :=
  { gameState :=
      { initialGameState with
        player1Category := "animals", player2Category := "food" }
    players := [ ⟨1, "animals", [], []⟩, ⟨2, "food", [], []⟩ ] }

/-- A board whose top row holds three pairwise different "tech" symbols. -/
def mixedBoard : List (Option String) :=
  [some "💻", some "📱", some "🎮", none, none, none, none, none, none]

/-- A board on which the top row and the middle row are both winning
triples for the "tech" category at once. -/
def doubleWinBoard : List (Option String) :=
  [some "💻", some "📱", some "🎮", some "🎧", some "📷", some "🔋",
   none, none, none]

/-- A variation of the reference play that reaches a 4th placement without a
win: after `demo4`, player 1 places at cell 3 instead of completing the top
row. -/
def alt5 : ComponentState := handleCellClick demo4 3 0

/-- Player 2 places 🚀 at cell 5; player 1 is now to move with 3 marks
(cells 0, 1, 3) on the board. -/
def alt6 : ComponentState := handleCellClick alt5 5 0

/-- The placement queue of the player whose turn it is (empty when no player
matches the current id). -/
def currentQueue (s : ComponentState) : List PlacedEmoji :=
  match s.players.find? (fun p => p.id == s.gameState.currentPlayer) with
  | some p => p.placedEmojis
  | none => []

theorem handleCellClick_noop (s : ComponentState) (i r : Nat)
    (h : ¬ canClick s i) : handleCellClick s i r = s := by
  rw [handleCellClick, if_neg h]

theorem catalog_no_qmark : ∀ p ∈ emojiCategories, "❓" ∉ p.2 := by decide

theorem catalog_no_empty : ∀ p ∈ emojiCategories, "" ∉ p.2 := by decide

theorem qmark_not_in_category (cat : String) : "❓" ∉ categoryEmojis cat := by
  unfold categoryEmojis
  cases hf : emojiCategories.find? (fun p => p.1 == cat) with
  | none => simp
  | some p => exact catalog_no_qmark p (List.mem_of_find?_eq_some hf)

theorem empty_not_in_category (cat : String) : "" ∉ categoryEmojis cat := by
  unfold categoryEmojis
  cases hf : emojiCategories.find? (fun p => p.1 == cat) with
  | none => simp
  | some p => exact catalog_no_empty p (List.mem_of_find?_eq_some hf)

theorem cell_win_prop (board : List (Option String)) (i : Nat) (cat : String) :
    (cellTruthy board i = true ∧
      (categoryEmojis cat).contains (cellEmoji board i) = true) ↔
    ∃ e, board[i]? = some (some e) ∧ e ∈ categoryEmojis cat := by
  cases hb : board[i]? with
  | none => simp [cellTruthy, cellEmoji, hb]
  | some o =>
    cases o with
    | none => simp [cellTruthy, cellEmoji, hb]
    | some e =>
      simp only [cellTruthy, cellEmoji, hb, List.contains_iff_exists_mem_beq]
      constructor
      · rintro ⟨ht, e', he', hbeq⟩
        exact ⟨e, rfl, by rwa [eq_of_beq hbeq]⟩
      · rintro ⟨e', he', hmem⟩
        obtain rfl : e = e' := by injection he' with h1; injection h1
        have hne : e ≠ "" := fun h => empty_not_in_category cat (h ▸ hmem)
        exact ⟨by simpa using hne, e, hmem, beq_self_eq_true e⟩

theorem tripleWinsFor_iff (board : List (Option String)) (cat : String)
    (a b c : Nat) :
    tripleWinsFor board cat a b c = true ↔
      ((∃ ea, board[a]? = some (some ea) ∧ ea ∈ categoryEmojis cat) ∧
       (∃ eb, board[b]? = some (some eb) ∧ eb ∈ categoryEmojis cat) ∧
       (∃ ec, board[c]? = some (some ec) ∧ ec ∈ categoryEmojis cat)) := by
  have ha := cell_win_prop board a cat
  have hb := cell_win_prop board b cat
  have hc := cell_win_prop board c cat
  simp only [tripleWinsFor, isCategoryWin, Bool.and_eq_true]
  constructor
  · rintro ⟨⟨⟨ta, tb⟩, tc⟩, ⟨ma, mb⟩, mc⟩
    exact ⟨ha.mp ⟨ta, ma⟩, hb.mp ⟨tb, mb⟩, hc.mp ⟨tc, mc⟩⟩
  · rintro ⟨ea, eb, ec⟩
    have h1 := ha.mpr ea
    have h2 := hb.mpr eb
    have h3 := hc.mpr ec
    exact ⟨⟨⟨h1.1, h2.1⟩, h3.1⟩, ⟨h1.2, h2.2⟩, h3.2⟩

theorem checkWinnerAux_eq_find (board : List (Option String))
    (cat1 cat2 : String) (combos : List (Nat × Nat × Nat)) :
    checkWinnerAux board cat1 cat2 combos =
      match combos.find? (fun t =>
          tripleWinsFor board cat1 t.1 t.2.1 t.2.2 ||
          tripleWinsFor board cat2 t.1 t.2.1 t.2.2) with
      | none => ⟨none, none⟩
      | some (a, b, c) =>
        ⟨if tripleWinsFor board cat1 a b c then some 1 else some 2,
         some [a, b, c]⟩ := by
  induction combos with
  | nil => rfl
  | cons t rest ih =>
    obtain ⟨a, b, c⟩ := t
    by_cases ht : (cellTruthy board a && cellTruthy board b && cellTruthy board c) = true
    · by_cases h1 : isCategoryWin board cat1 a b c = true
      · simp [checkWinnerAux, ht, h1, List.find?_cons, tripleWinsFor]
      · by_cases h2 : isCategoryWin board cat2 a b c = true
        · simp [checkWinnerAux, ht, h1, h2, List.find?_cons, tripleWinsFor]
        · simpa [checkWinnerAux, ht, h1, h2, List.find?_cons, tripleWinsFor]
            using ih
    · simpa [checkWinnerAux, ht, List.find?_cons, tripleWinsFor,
        Bool.and_eq_true] using ih

/-- C2 (counterexample): `startGame` on a state whose two players are both
bound to "tech" starts the game anyway — there is no InvalidConfiguration
error path in the engine, and the categories stay equal. -/
theorem startGame_equal_categories_starts :
    (startGame gsEqualCats).gameStarted = true ∧
    (startGame gsEqualCats).player1Category =
      (startGame gsEqualCats).player2Category := by
  exact ⟨rfl, rfl⟩

/-- C2 (amended): `startGame` performs no validation of the two selected
categories: for every prior game state — including one where both players
share a category — it starts the game, leaving both categories unchanged,
with an empty board, player 1 to move and no winner. -/
theorem startGame_no_validation (gs : GameState) :
    (startGame gs).gameStarted = true ∧
    (startGame gs).player1Category = gs.player1Category ∧
    (startGame gs).player2Category = gs.player2Category ∧
    (startGame gs).board = List.replicate 9 none ∧
    (startGame gs).currentPlayer = 1 ∧
    (startGame gs).winner = none ∧
    (startGame gs).winningLine = none :=
  ⟨rfl, rfl, rfl, rfl, rfl, rfl, rfl⟩

/-- C3 (counterexample): in the reference play, player 1's third placement
(cell 2) completes the top row and sets the winner, yet `currentPlayer` is
still advanced from 1 to 2 — the turn does not stay frozen on the winner. -/
theorem winning_move_still_advances_turn :
    demo5.gameState.winner = some 1 ∧
    demo5.gameState.winningLine = some [0, 1, 2] ∧
    demo4.gameState.currentPlayer = 1 ∧
    demo5.gameState.currentPlayer = 2 := by decide

/-- C3 (amended): every legal `applyMove` — winning or not — switches
`currentPlayer` to the other player, and sets `winner` and `winningLine`
to exactly the result of win evaluation on the post-move board. -/
theorem applyMove_always_toggles_turn (s : ComponentState) (i r : Nat)
    (h : canClick s i) :
    (handleCellClick s i r).gameState.currentPlayer =
      (if s.gameState.currentPlayer == 1 then 2 else 1) ∧
    (handleCellClick s i r).gameState.winner =
      (checkWinner (handleCellClick s i r).gameState.board
        s.gameState.player1Category s.gameState.player2Category).winner ∧
    (handleCellClick s i r).gameState.winningLine =
      (checkWinner (handleCellClick s i r).gameState.board
        s.gameState.player1Category s.gameState.player2Category).winningLine := by
  rw [handleCellClick, if_pos h]
  exact ⟨rfl, rfl, rfl⟩

/-- C3 (witness): the amended theorem applied to player 1's winning click on
cell 2 of the reference play. -/
theorem applyMove_always_toggles_turn_witness :
    (handleCellClick demo4 2 0).gameState.currentPlayer =
      (if demo4.gameState.currentPlayer == 1 then 2 else 1) ∧
    (handleCellClick demo4 2 0).gameState.winner =
      (checkWinner (handleCellClick demo4 2 0).gameState.board
        demo4.gameState.player1Category demo4.gameState.player2Category).winner ∧
    (handleCellClick demo4 2 0).gameState.winningLine =
      (checkWinner (handleCellClick demo4 2 0).gameState.board
        demo4.gameState.player1Category demo4.gameState.player2Category).winningLine :=
  applyMove_always_toggles_turn demo4 2 0 (by decide)

/-- C5: an `applyMove` violating any precondition — game not started, a
winner already set, the cell index outside the 9-cell board, or the target
cell occupied — returns the state entirely unchanged (the component state
carries the board, both placement queues, `currentPlayer`, `winner`,
`winningLine` and the started flag). -/
theorem applyMove_illegal_noop (s : ComponentState) (i r : Nat)
    (hlen : s.gameState.board.length = 9)
    (h : s.gameState.gameStarted = false ∨ s.gameState.winner ≠ none ∨
      9 ≤ i ∨ ∃ e, s.gameState.board[i]? = some (some e)) :
    handleCellClick s i r = s := by
  apply handleCellClick_noop
  rintro ⟨hstart, hcell, hwin⟩
  rcases h with h | h | h | ⟨e, h⟩
  · rw [hstart] at h; cases h
  · exact h hwin
  · rw [List.getElem?_eq_none (by omega)] at hcell; cases hcell
  · rw [h] at hcell; simp at hcell

/-- C5 (witness): after player 1 places at cell 0, clicking cell 0 again
changes nothing; clicking the out-of-range index 9 changes nothing; and no
click is accepted before the game starts. -/
theorem applyMove_illegal_noop_witness :
    handleCellClick demo1 0 5 = demo1 ∧
    handleCellClick demo1 9 5 = demo1 ∧
    handleCellClick ⟨initialGameState, []⟩ 4 5 = ⟨initialGameState, []⟩ := by
  refine ⟨?_, ?_, ?_⟩
  · exact applyMove_illegal_noop demo1 0 5 (by decide)
      (Or.inr (Or.inr (Or.inr ⟨"💻", by decide⟩)))
  · exact applyMove_illegal_noop demo1 9 5 (by decide)
      (Or.inr (Or.inr (Or.inl (by omega))))
  · exact applyMove_illegal_noop ⟨initialGameState, []⟩ 4 5 (by decide)
      (Or.inl (by decide))

/-- C6: a triple is declared a win for a category exactly when all three of
its cells are occupied and each occupying symbol is a member of that
category's fixed symbol list — the three symbols are quantified
independently, so they need not be identical; concretely, three pairwise
different "tech" symbols on the top row make `checkWinner` declare player 1
the winner on line `[0, 1, 2]`. -/
theorem checkWinner_category_membership :
    (∀ board cat a b c, tripleWinsFor board cat a b c = true ↔
      ((∃ ea, board[a]? = some (some ea) ∧ ea ∈ categoryEmojis cat) ∧
       (∃ eb, board[b]? = some (some eb) ∧ eb ∈ categoryEmojis cat) ∧
       (∃ ec, board[c]? = some (some ec) ∧ ec ∈ categoryEmojis cat))) ∧
    checkWinner mixedBoard "tech" "space" = ⟨some 1, some [0, 1, 2]⟩ :=
  ⟨tripleWinsFor_iff, by decide⟩

/-- C6 (witness): the membership characterization instantiated on the
three-different-symbols board: 💻, 📱, 🎮 are all "tech" members, so the
top-row triple passes the win test. -/
theorem checkWinner_category_membership_witness :
    tripleWinsFor mixedBoard "tech" 0 1 2 = true := by
  have h := checkWinner_category_membership.1 mixedBoard "tech" 0 1 2
  exact h.mpr ⟨⟨"💻", by decide, by decide⟩, ⟨"📱", by decide, by decide⟩,
    ⟨"🎮", by decide, by decide⟩⟩

/-- C8: `checkWinner` scans exactly the 8 fixed triples — the 3 rows, the
3 columns, the 2 diagonals, in that order — and returns the first triple
(player 1's category tested before player 2's) that matches; when several
triples win simultaneously only the first in scan order is reported, as on
the double-win board, where rows `[0,1,2]` and `[3,4,5]` both win for
player 1 but only `[0,1,2]` is returned. -/
theorem checkWinner_first_match :
    winningCombinations =
      [ (0, 1, 2), (3, 4, 5), (6, 7, 8), (0, 3, 6), (1, 4, 7), (2, 5, 8),
        (0, 4, 8), (2, 4, 6) ] ∧
    (∀ board cat1 cat2, checkWinner board cat1 cat2 =
      match winningCombinations.find? (fun t =>
          tripleWinsFor board cat1 t.1 t.2.1 t.2.2 ||
          tripleWinsFor board cat2 t.1 t.2.1 t.2.2) with
      | none => ⟨none, none⟩
      | some (a, b, c) =>
        ⟨if tripleWinsFor board cat1 a b c then some 1 else some 2,
         some [a, b, c]⟩) ∧
    tripleWinsFor doubleWinBoard "tech" 0 1 2 = true ∧
    tripleWinsFor doubleWinBoard "tech" 3 4 5 = true ∧
    checkWinner doubleWinBoard "tech" "space" = ⟨some 1, some [0, 1, 2]⟩ :=
  ⟨rfl, fun board cat1 cat2 => checkWinnerAux_eq_find board cat1 cat2 _,
   by decide, by decide, by decide⟩

/-- C9 (counterexample): `resetGame` on a session whose selected categories
are "animals" and "food" keeps those selections; it does not restore the
defaults "tech" and "space" of `initialGameState`. -/
theorem resetGame_keeps_selected_categories :
    (resetGame sNonDefault).gameState.player1Category = "animals" ∧
    (resetGame sNonDefault).gameState.player2Category = "food" ∧
    initialGameState.player1Category = "tech" ∧
    initialGameState.player2Category = "space" ∧
    ("animals" : String) ≠ "tech" := by decide

/-- C9 (amended): `resetGame` returns to the setup stage — empty board,
cleared queues and emoji lists, cleared winner and winning line, player 1
to move, game not started — while preserving the two currently selected
categories (it does not reset them to the defaults). -/
theorem resetGame_returns_to_setup (s : ComponentState) :
    (resetGame s).gameState.gameStarted = false ∧
    (resetGame s).gameState.board = List.replicate 9 none ∧
    (resetGame s).gameState.currentPlayer = 1 ∧
    (resetGame s).gameState.winner = none ∧
    (resetGame s).gameState.winningLine = none ∧
    (resetGame s).gameState.player1Category = s.gameState.player1Category ∧
    (resetGame s).gameState.player2Category = s.gameState.player2Category ∧
    (resetGame s).players =
      [ ⟨1, s.gameState.player1Category, [], []⟩,
        ⟨2, s.gameState.player2Category, [], []⟩ ] :=
  ⟨rfl, rfl, rfl, rfl, rfl, rfl, rfl, rfl⟩

/-- C10: `getRandomEmoji` is total: with no player of the given id, or with
an empty emoji list, it returns the fixed placeholder "❓" — a symbol that
belongs to no category and hence can never pass the category-membership win
test — and otherwise the draw is an element of that player's emoji list. -/
theorem getRandomEmoji_total (players : List Player) (pid r : Nat) :
    (players.find? (fun p => p.id == pid) = none →
      getRandomEmoji players pid r = "❓") ∧
    (∀ p, players.find? (fun q => q.id == pid) = some p →
      (p.emojis = [] → getRandomEmoji players pid r = "❓") ∧
      (p.emojis ≠ [] → getRandomEmoji players pid r ∈ p.emojis)) ∧
    (∀ cat, "❓" ∉ categoryEmojis cat) := by
  refine ⟨fun hf => ?_, fun p hf => ⟨fun hnil => ?_, fun hne => ?_⟩,
    qmark_not_in_category⟩
  · rw [getRandomEmoji, hf]
  · rw [getRandomEmoji, hf]
    show (if p.emojis.length = 0 then "❓"
      else p.emojis.getD (r % p.emojis.length) "❓") = "❓"
    rw [hnil]
    simp
  · rw [getRandomEmoji, hf]
    show (if p.emojis.length = 0 then "❓"
      else p.emojis.getD (r % p.emojis.length) "❓") ∈ p.emojis
    have hpos : 0 < p.emojis.length := List.length_pos.mpr hne
    have hlt : r % p.emojis.length < p.emojis.length := Nat.mod_lt _ hpos
    rw [if_neg (by omega), List.getD_eq_getElem _ _ hlt]
    exact List.getElem_mem hlt

/-- C10 (witness): the total-draw theorem applied to the empty players array
(placeholder returned), to the reference players (draw lands in player 1's
"tech" list), and to the "tech" category for the no-category fact. -/
theorem getRandomEmoji_total_witness :
    getRandomEmoji [] 1 0 = "❓" ∧
    getRandomEmoji demo0.players 1 12 ∈ categoryEmojis "tech" ∧
    "❓" ∉ categoryEmojis "tech" := by
  refine ⟨(getRandomEmoji_total [] 1 0).1 rfl, ?_, (getRandomEmoji_total [] 1 0).2.2 "tech"⟩
  have h := (getRandomEmoji_total demo0.players 1 12).2.1
    ⟨1, "tech", categoryEmojis "tech", []⟩ (by decide)
  exact h.2 (by decide)

theorem lt_of_getElem?_some {α : Type} {l : List α} {j : Nat} {a : α}
    (h : l[j]? = some a) : j < l.length := by
  rcases List.getElem?_eq_some_iff.mp h with ⟨hj, _⟩
  exact hj

theorem queue_pos_ne_click {board : List (Option String)} {i : Nat}
    {pe : PlacedEmoji} (hmem : board[pe.position]? = some (some pe.emoji))
    (hi : board[i]? = some none) : pe.position ≠ i := by
  intro h
  rw [h, hi] at hmem
  simp at hmem

theorem applyPlacement_of_le (q : List PlacedEmoji)
    (board : List (Option String)) (i : Nat) (em : String)
    (h : q.length ≤ 2) :
    applyPlacement q board i em = (q ++ [⟨i, em⟩], board) := by
  simp only [applyPlacement]
  rw [if_neg (by
    simp only [List.length_append, List.length_cons, List.length_nil]
    omega)]

theorem applyPlacement_of_three (pe0 : PlacedEmoji) (qt : List PlacedEmoji)
    (board : List (Option String)) (i : Nat) (em : String)
    (h : qt.length = 2) :
    applyPlacement (pe0 :: qt) board i em =
      (qt ++ [⟨i, em⟩], board.set pe0.position none) := by
  simp only [applyPlacement]
  rw [if_pos (by
    simp only [List.length_append, List.length_cons, List.length_nil]
    omega)]
  rfl

theorem place_core (board : List (Option String)) (i : Nat) (em : String)
    (qa qp : List PlacedEmoji)
    (hlen : board.length = 9)
    (ha : qa.length ≤ 3)
    (hnd : ((qa ++ qp).map PlacedEmoji.position).Nodup)
    (hmem : ∀ pe ∈ qa ++ qp, board[pe.position]? = some (some pe.emoji))
    (hocc : ∀ j e, board[j]? = some (some e) →
      ∃ pe ∈ qa ++ qp, pe.position = j)
    (hi : board[i]? = some none) :
    (applyPlacement qa (board.set i (some em)) i em).2.length = 9 ∧
    (applyPlacement qa (board.set i (some em)) i em).1.length ≤ 3 ∧
    (((applyPlacement qa (board.set i (some em)) i em).1 ++ qp).map
      PlacedEmoji.position).Nodup ∧
    (∀ pe ∈ (applyPlacement qa (board.set i (some em)) i em).1 ++ qp,
      (applyPlacement qa (board.set i (some em)) i em).2[pe.position]? =
        some (some pe.emoji)) ∧
    (∀ j e,
      (applyPlacement qa (board.set i (some em)) i em).2[j]? = some (some e) →
      ∃ pe ∈ (applyPlacement qa (board.set i (some em)) i em).1 ++ qp,
        pe.position = j) := by
  have hilt : i < board.length := lt_of_getElem?_some hi
  have hfresh : ∀ pe ∈ qa ++ qp, pe.position ≠ i :=
    fun pe hpe => queue_pos_ne_click (hmem pe hpe) hi
  have hnb_i : (board.set i (some em))[i]? = some (some em) :=
    List.getElem?_set_eq_of_lt _ hilt
  have hnb_ne : ∀ j, j ≠ i → (board.set i (some em))[j]? = board[j]? :=
    fun j hj => List.getElem?_set_ne (Ne.symm hj)
  have hmap : (qa ++ qp).map PlacedEmoji.position =
      qa.map PlacedEmoji.position ++ qp.map PlacedEmoji.position :=
    List.map_append _ _ _
  have hifresh : i ∉ qa.map PlacedEmoji.position ++ qp.map PlacedEmoji.position := by
    rw [← hmap]
    intro hmi
    rcases List.mem_map.mp hmi with ⟨pe, hpe, hpos⟩
    exact hfresh pe hpe hpos
  rcases Nat.lt_or_ge qa.length 3 with hlt3 | hge3
  · -- queue short: no eviction
    rw [applyPlacement_of_le qa _ i em (by omega)]
    refine ⟨by simp [hlen], by simp; omega, ?_, ?_, ?_⟩
    · have heq : (qa ++ [(⟨i, em⟩ : PlacedEmoji)] ++ qp).map PlacedEmoji.position =
          qa.map PlacedEmoji.position ++ i :: qp.map PlacedEmoji.position := by
        simp
      rw [heq]
      refine (List.perm_middle.nodup_iff).mpr ?_
      rw [List.nodup_cons]
      exact ⟨hifresh, by rw [← hmap]; exact hnd⟩
    · intro pe hpe
      rcases (by simpa [List.mem_append, List.mem_cons, or_assoc] using hpe :
          pe ∈ qa ∨ pe = ⟨i, em⟩ ∨ pe ∈ qp) with hq | rfl | hq
      · rw [hnb_ne _ (hfresh pe (List.mem_append_left _ hq))]
        exact hmem pe (List.mem_append_left _ hq)
      · exact hnb_i
      · rw [hnb_ne _ (hfresh pe (List.mem_append_right _ hq))]
        exact hmem pe (List.mem_append_right _ hq)
    · intro j e hje
      by_cases hj : j = i
      · exact ⟨⟨i, em⟩, by simp, hj.symm⟩
      · rw [hnb_ne j hj] at hje
        rcases hocc j e hje with ⟨pe, hpe, hpos⟩
        rcases List.mem_append.mp hpe with hq | hq
        · exact ⟨pe, by simp [List.mem_append, hq], hpos⟩
        · exact ⟨pe, by simp [List.mem_append, hq], hpos⟩
  · -- queue at capacity: the oldest record is evicted
    match qa, ha, hge3 with
    | pe0 :: qt, ha, hge3 =>
    have hqt : qt.length = 2 := by
      simp only [List.length_cons] at ha hge3
      omega
    rw [applyPlacement_of_three pe0 qt _ i em hqt]
    have h0mem : pe0 ∈ pe0 :: qt ++ qp := by simp
    have h0occ : board[pe0.position]? = some (some pe0.emoji) := hmem pe0 h0mem
    have h0i : pe0.position ≠ i := hfresh pe0 h0mem
    have h0lt : pe0.position < (board.set i (some em)).length := by
      rw [List.length_set]
      exact lt_of_getElem?_some h0occ
    have hfb0 : ((board.set i (some em)).set pe0.position none)[pe0.position]? =
        some none := List.getElem?_set_eq_of_lt _ h0lt
    have hfb_ne : ∀ j, j ≠ i → j ≠ pe0.position →
        ((board.set i (some em)).set pe0.position none)[j]? = board[j]? := by
      intro j hji hj0
      rw [List.getElem?_set_ne (Ne.symm hj0), hnb_ne j hji]
    have hfb_i : ((board.set i (some em)).set pe0.position none)[i]? =
        some (some em) := by
      rw [List.getElem?_set_ne h0i, hnb_i]
    have hndtail : (qt.map PlacedEmoji.position ++
        qp.map PlacedEmoji.position).Nodup ∧
        pe0.position ∉ qt.map PlacedEmoji.position ++
          qp.map PlacedEmoji.position := by
      have : ((pe0 :: qt ++ qp).map PlacedEmoji.position).Nodup := hnd
      rw [List.cons_append, List.map_cons, List.nodup_cons, List.map_append]
        at this
      exact ⟨this.2, this.1⟩
    refine ⟨by simp [hlen], by simp [hqt], ?_, ?_, ?_⟩
    · have heq : (qt ++ [(⟨i, em⟩ : PlacedEmoji)] ++ qp).map PlacedEmoji.position =
          qt.map PlacedEmoji.position ++ i :: qp.map PlacedEmoji.position := by
        simp
      rw [heq]
      refine (List.perm_middle.nodup_iff).mpr ?_
      rw [List.nodup_cons]
      refine ⟨?_, hndtail.1⟩
      intro hmi
      rcases List.mem_append.mp hmi with hq | hq
      · rcases List.mem_map.mp hq with ⟨pe, hpe, hpos⟩
        exact hfresh pe (by simp [hpe]) hpos
      · rcases List.mem_map.mp hq with ⟨pe, hpe, hpos⟩
        exact hfresh pe (by simp [hpe]) hpos
    · intro pe hpe
      rcases (by simpa [List.mem_append, List.mem_cons, or_assoc] using hpe :
          pe ∈ qt ∨ pe = ⟨i, em⟩ ∨ pe ∈ qp) with hq | rfl | hq
      · have hpos0 : pe.position ≠ pe0.position := by
          intro h
          exact hndtail.2 (h ▸ List.mem_append_left _
            (List.mem_map.mpr ⟨pe, hq, rfl⟩))
        rw [hfb_ne _ (hfresh pe (by simp [hq])) hpos0]
        exact hmem pe (by simp [hq])
      · exact hfb_i
      · have hpos0 : pe.position ≠ pe0.position := by
          intro h
          exact hndtail.2 (h ▸ List.mem_append_right _
            (List.mem_map.mpr ⟨pe, hq, rfl⟩))
        rw [hfb_ne _ (hfresh pe (by simp [hq])) hpos0]
        exact hmem pe (by simp [hq])
    · intro j e hje
      have hj0 : j ≠ pe0.position := by
        intro h
        rw [h, hfb0] at hje
        simp at hje
      by_cases hj : j = i
      · exact ⟨⟨i, em⟩, by simp, hj.symm⟩
      · rw [hfb_ne j hj hj0] at hje
        rcases hocc j e hje with ⟨pe, hpe, hpos⟩
        rcases (by simpa [List.mem_append, List.mem_cons, or_assoc] using hpe :
            pe = pe0 ∨ pe ∈ qt ∨ pe ∈ qp) with rfl | hq | hq
        · exact absurd hpos.symm (by rw [← hpos] at hj0; exact fun h => hj0 rfl)
        · exact ⟨pe, by simp [List.mem_append, hq], hpos⟩
        · exact ⟨pe, by simp [List.mem_append, hq], hpos⟩

theorem upb_pid1 (c1 : String) (e1 : List String) (q1 : List PlacedEmoji)
    (c2 : String) (e2 : List String) (q2 : List PlacedEmoji)
    (board : List (Option String)) (i : Nat) (em : String) :
    updatePlayersAndBoard [⟨1, c1, e1, q1⟩, ⟨2, c2, e2, q2⟩] board 1 i em =
      ([⟨1, c1, e1, (applyPlacement q1 board i em).1⟩, ⟨2, c2, e2, q2⟩],
       (applyPlacement q1 board i em).2) := rfl

theorem upb_pid2 (c1 : String) (e1 : List String) (q1 : List PlacedEmoji)
    (c2 : String) (e2 : List String) (q2 : List PlacedEmoji)
    (board : List (Option String)) (i : Nat) (em : String) :
    updatePlayersAndBoard [⟨1, c1, e1, q1⟩, ⟨2, c2, e2, q2⟩] board 2 i em =
      ([⟨1, c1, e1, q1⟩, ⟨2, c2, e2, (applyPlacement q2 board i em).1⟩],
       (applyPlacement q2 board i em).2) := rfl

theorem handleCellClick_pos (s : ComponentState) (i r : Nat)
    (h : canClick s i) :
    handleCellClick s i r =
      { gameState :=
          { s.gameState with
            board := (updatePlayersAndBoard s.players
              (s.gameState.board.set i
                (some (getRandomEmoji s.players s.gameState.currentPlayer r)))
              s.gameState.currentPlayer i
              (getRandomEmoji s.players s.gameState.currentPlayer r)).2
            currentPlayer := if s.gameState.currentPlayer == 1 then 2 else 1
            winner := (checkWinner (updatePlayersAndBoard s.players
              (s.gameState.board.set i
                (some (getRandomEmoji s.players s.gameState.currentPlayer r)))
              s.gameState.currentPlayer i
              (getRandomEmoji s.players s.gameState.currentPlayer r)).2
              s.gameState.player1Category s.gameState.player2Category).winner
            winningLine := (checkWinner (updatePlayersAndBoard s.players
              (s.gameState.board.set i
                (some (getRandomEmoji s.players s.gameState.currentPlayer r)))
              s.gameState.currentPlayer i
              (getRandomEmoji s.players s.gameState.currentPlayer r)).2
              s.gameState.player1Category s.gameState.player2Category).winningLine }
        players := (updatePlayersAndBoard s.players
          (s.gameState.board.set i
            (some (getRandomEmoji s.players s.gameState.currentPlayer r)))
          s.gameState.currentPlayer i
          (getRandomEmoji s.players s.gameState.currentPlayer r)).1 } := by
  rw [handleCellClick, if_pos h]

theorem engineInv_start (gs : GameState) (em1 em2 : List String) :
    EngineInv (startedState gs em1 em2) := by
  refine ⟨gs.player1Category, em1, [], gs.player2Category, em2, [],
    rfl, by simp [startedState, startGame], by simp, by simp, by simp,
    by simp, ?_, Or.inl rfl⟩
  intro j e hje
  exfalso
  have : (startedState gs em1 em2).gameState.board = List.replicate 9 none := rfl
  rw [this, List.getElem?_replicate] at hje
  by_cases hj : j < 9 <;> simp [hj] at hje

theorem engineInv_step (s : ComponentState) (i r : Nat)
    (hInv : EngineInv s) : EngineInv (handleCellClick s i r) := by
  by_cases hc : canClick s i
  · obtain ⟨c1, e1, q1, c2, e2, q2, hshape, hlen, h1, h2, hnd, hmem, hocc, hcp⟩ :=
      hInv
    obtain ⟨hstart, hcell, hwin⟩ := hc
    rw [handleCellClick_pos s i r ⟨hstart, hcell, hwin⟩]
    rcases hcp with hcp | hcp
    · rw [hshape, hcp, upb_pid1]
      have core := place_core s.gameState.board i
        (getRandomEmoji [⟨1, c1, e1, q1⟩, ⟨2, c2, e2, q2⟩] 1 r)
        q1 q2 hlen h1 hnd hmem hocc hcell
      exact ⟨c1, e1, _, c2, e2, q2, rfl, core.1, core.2.1, h2,
        core.2.2.1, core.2.2.2.1, core.2.2.2.2, Or.inr rfl⟩
    · rw [hshape, hcp, upb_pid2]
      have hnd' : ((q2 ++ q1).map PlacedEmoji.position).Nodup := by
        rw [List.map_append]
        rw [List.map_append] at hnd
        exact List.nodup_append_comm.mp hnd
      have hmem' : ∀ pe ∈ q2 ++ q1,
          s.gameState.board[pe.position]? = some (some pe.emoji) := by
        intro pe hpe
        refine hmem pe ?_
        rcases List.mem_append.mp hpe with hq | hq
        · exact List.mem_append_right _ hq
        · exact List.mem_append_left _ hq
      have hocc' : ∀ j e, s.gameState.board[j]? = some (some e) →
          ∃ pe ∈ q2 ++ q1, pe.position = j := by
        intro j e hje
        rcases hocc j e hje with ⟨pe, hpe, hpos⟩
        refine ⟨pe, ?_, hpos⟩
        rcases List.mem_append.mp hpe with hq | hq
        · exact List.mem_append_right _ hq
        · exact List.mem_append_left _ hq
      have core := place_core s.gameState.board i
        (getRandomEmoji [⟨1, c1, e1, q1⟩, ⟨2, c2, e2, q2⟩] 2 r)
        q2 q1 hlen h2 hnd' hmem' hocc' hcell
      refine ⟨c1, e1, q1, c2, e2, _, rfl, core.1, h1, core.2.1, ?_, ?_, ?_,
        Or.inl rfl⟩
      · have := core.2.2.1
        rw [List.map_append] at this ⊢
        exact List.nodup_append_comm.mp this
      · intro pe hpe
        refine core.2.2.2.1 pe ?_
        rcases List.mem_append.mp hpe with hq | hq
        · exact List.mem_append_right _ hq
        · exact List.mem_append_left _ hq
      · intro j e hje
        rcases core.2.2.2.2 j e hje with ⟨pe, hpe, hpos⟩
        refine ⟨pe, ?_, hpos⟩
        rcases List.mem_append.mp hpe with hq | hq
        · exact List.mem_append_right _ hq
        · exact List.mem_append_left _ hq
  · rw [handleCellClick_noop s i r hc]
    exact hInv

theorem engineInv_reachable (s : ComponentState) (h : Reachable s) :
    EngineInv s := by
  induction h with
  | start gs em1 em2 => exact engineInv_start gs em1 em2
  | step s i r _ ih => exact engineInv_step s i r ih

theorem reachable_demo0 : Reachable demo0 :=
  Reachable.start initialGameState (categoryEmojis "tech")
    (categoryEmojis "space")

theorem reachable_demo5 : Reachable demo5 :=
  Reachable.step demo4 2 0 (Reachable.step demo3 7 0 (Reachable.step demo2 1 0
    (Reachable.step demo1 8 0 (Reachable.step demo0 0 0 reachable_demo0))))

theorem playerOccupiedCount_le (board : List (Option String)) (p : Player) :
    playerOccupiedCount board p ≤ p.placedEmojis.length := by
  unfold playerOccupiedCount
  have hnd : ((List.range 9).filter (fun i =>
      isOccupied board i &&
      (p.placedEmojis.map PlacedEmoji.position).contains i)).Nodup :=
    (List.nodup_range 9).filter _
  have hsub : ((List.range 9).filter (fun i =>
      isOccupied board i &&
      (p.placedEmojis.map PlacedEmoji.position).contains i)) ⊆
      p.placedEmojis.map PlacedEmoji.position := by
    intro x hx
    have hx2 := (List.mem_filter.mp hx).2
    simp only [Bool.and_eq_true] at hx2
    rcases List.contains_iff_exists_mem_beq.mp hx2.2 with ⟨y, hy, hbeq⟩
    rwa [eq_of_beq hbeq]
  calc ((List.range 9).filter _).length
      ≤ (p.placedEmojis.map PlacedEmoji.position).length :=
        (hnd.subperm hsub).length_le
    _ = p.placedEmojis.length := List.length_map _ _

theorem isOccupied_iff (board : List (Option String)) (i : Nat) :
    isOccupied board i = true ↔ ∃ e, board[i]? = some (some e) := by
  unfold isOccupied
  cases hb : board[i]? with
  | none => simp
  | some o => cases o <;> simp

theorem playerOccupiedCount_eq (board : List (Option String)) (p : Player)
    (hnd : (p.placedEmojis.map PlacedEmoji.position).Nodup)
    (hlen : board.length = 9)
    (hmem : ∀ pe ∈ p.placedEmojis,
      board[pe.position]? = some (some pe.emoji)) :
    playerOccupiedCount board p = p.placedEmojis.length := by
  refine Nat.le_antisymm (playerOccupiedCount_le board p) ?_
  unfold playerOccupiedCount
  have hsub : p.placedEmojis.map PlacedEmoji.position ⊆
      (List.range 9).filter (fun i =>
        isOccupied board i &&
        (p.placedEmojis.map PlacedEmoji.position).contains i) := by
    intro x hx
    rcases List.mem_map.mp hx with ⟨pe, hpe, rfl⟩
    have hocc := hmem pe hpe
    refine List.mem_filter.mpr ⟨List.mem_range.mpr ?_, ?_⟩
    · have := lt_of_getElem?_some hocc
      omega
    · simp only [Bool.and_eq_true]
      refine ⟨(isOccupied_iff _ _).mpr ⟨pe.emoji, hocc⟩, ?_⟩
      exact List.contains_iff_exists_mem_beq.mpr ⟨pe.position, hx, by simp⟩
  calc p.placedEmojis.length
      = (p.placedEmojis.map PlacedEmoji.position).length :=
        (List.length_map _ _).symm
    _ ≤ _ := (hnd.subperm hsub).length_le

/-- C4: in every state reachable from a started game, each player's placement
queue has length at most 3, and the number of occupied board cells belonging
to that player equals that queue's length, hence is also at most 3. -/
theorem player_marks_bounded (s : ComponentState) (h : Reachable s) :
    ∀ p ∈ s.players, p.placedEmojis.length ≤ 3 ∧
      playerOccupiedCount s.gameState.board p = p.placedEmojis.length ∧
      playerOccupiedCount s.gameState.board p ≤ 3 := by
  obtain ⟨c1, e1, q1, c2, e2, q2, hshape, hlen, h1, h2, hnd, hmem, _, _⟩ :=
    engineInv_reachable s h
  have hnd12 : (q1.map PlacedEmoji.position).Nodup ∧
      (q2.map PlacedEmoji.position).Nodup := by
    rw [List.map_append] at hnd
    exact ⟨(List.nodup_append.mp hnd).1, (List.nodup_append.mp hnd).2.1⟩
  intro p hp
  rw [hshape] at hp
  rcases (by simpa using hp : p = ⟨1, c1, e1, q1⟩ ∨ p = ⟨2, c2, e2, q2⟩)
    with rfl | rfl
  · have heq := playerOccupiedCount_eq s.gameState.board ⟨1, c1, e1, q1⟩
      hnd12.1 hlen (fun pe hpe => hmem pe (List.mem_append_left _ hpe))
    exact ⟨h1, heq, heq.le.trans h1⟩
  · have heq := playerOccupiedCount_eq s.gameState.board ⟨2, c2, e2, q2⟩
      hnd12.2 hlen (fun pe hpe => hmem pe (List.mem_append_right _ hpe))
    exact ⟨h2, heq, heq.le.trans h2⟩

/-- C4 (witness): the bound at the end of the reference play, on player 1's
record (3 marks placed, 3 cells occupied). -/
theorem player_marks_bounded_witness :
    (demo5.players.getD 0 ⟨0, "", [], []⟩).placedEmojis.length ≤ 3 ∧
    playerOccupiedCount demo5.gameState.board
      (demo5.players.getD 0 ⟨0, "", [], []⟩) =
      (demo5.players.getD 0 ⟨0, "", [], []⟩).placedEmojis.length ∧
    playerOccupiedCount demo5.gameState.board
      (demo5.players.getD 0 ⟨0, "", [], []⟩) ≤ 3 :=
  player_marks_bounded demo5 reachable_demo5
    (demo5.players.getD 0 ⟨0, "", [], []⟩) (by decide)

/-- C7: no reachable state has a full board, hence vacuously a full board
implies a declared winner — no draw is reachable and the engine never
signals one. -/
theorem no_draw_reachable (s : ComponentState) (h : Reachable s) :
    boardFull s.gameState.board = false ∧
    (boardFull s.gameState.board = true → s.gameState.winner ≠ none) := by
  obtain ⟨c1, e1, q1, c2, e2, q2, hshape, hlen, h1, h2, hnd, hmem, hocc, hcp⟩ :=
    engineInv_reachable s h
  have hfull : boardFull s.gameState.board = false := by
    cases hb : boardFull s.gameState.board with
    | false => rfl
    | true =>
      exfalso
      have hall := List.all_eq_true.mp hb
      have hsub : List.range 9 ⊆ (q1 ++ q2).map PlacedEmoji.position := by
        intro x hx
        rcases (isOccupied_iff _ x).mp (hall x hx) with ⟨e, he⟩
        rcases hocc x e he with ⟨pe, hpe, hpos⟩
        exact List.mem_map.mpr ⟨pe, hpe, hpos⟩
      have hle : 9 ≤ ((q1 ++ q2).map PlacedEmoji.position).length := by
        simpa using ((List.nodup_range 9).subperm hsub).length_le
      rw [List.length_map, List.length_append] at hle
      omega
  refine ⟨hfull, fun hc => ?_⟩
  rw [hfull] at hc
  exact absurd hc Bool.false_ne_true

/-- C7 (witness): the no-full-board consequence at the end of the reference
play. -/
theorem no_draw_reachable_witness : boardFull demo5.gameState.board = false :=
  (no_draw_reachable demo5 reachable_demo5).1

/-- C1: a legal click that gives the current player a 4th queued placement
empties exactly the board cell of that player's oldest placement, puts the
newly drawn symbol in the clicked cell, leaves every other board cell
untouched, and leaves the other player's record (queue included) unchanged;
eviction and placement happen inside the single `handleCellClick` transition. -/
theorem fourth_placement_frame (s : ComponentState) (i r : Nat)
    (hreach : Reachable s) (hclick : canClick s i)
    (hq : (currentQueue s).length = 3) :
    (handleCellClick s i r).gameState.board[i]? =
      some (some (getRandomEmoji s.players s.gameState.currentPlayer r)) ∧
    (handleCellClick s i r).gameState.board[
      ((currentQueue s).headD ⟨0, ""⟩).position]? = some none ∧
    (∀ j, j ≠ i → j ≠ ((currentQueue s).headD ⟨0, ""⟩).position →
      (handleCellClick s i r).gameState.board[j]? = s.gameState.board[j]?) ∧
    (∀ p ∈ s.players, p.id ≠ s.gameState.currentPlayer →
      p ∈ (handleCellClick s i r).players) := by
  obtain ⟨c1, e1, q1, c2, e2, q2, hshape, hlen, h1, h2, hnd, hmem, hocc, hcp⟩ :=
    engineInv_reachable s hreach
  have hcell : s.gameState.board[i]? = some none := hclick.2.1
  have hilt : i < s.gameState.board.length := lt_of_getElem?_some hcell
  rw [handleCellClick_pos s i r hclick]
  rcases hcp with hcp | hcp
  · have hcq : currentQueue s = q1 := by
      simp only [currentQueue]
      rw [hshape, hcp]
      rfl
    obtain ⟨pe0, qt, rfl⟩ : ∃ pe0 qt, q1 = pe0 :: qt := by
      rw [hcq] at hq
      cases q1 with
      | nil => simp at hq
      | cons a l => exact ⟨a, l, rfl⟩
    have hqt : qt.length = 2 := by
      rw [hcq] at hq
      simp at hq
      omega
    have h0occ : s.gameState.board[pe0.position]? = some (some pe0.emoji) :=
      hmem pe0 (by simp)
    have h0i : pe0.position ≠ i := queue_pos_ne_click h0occ hcell
    have h0lt : pe0.position < s.gameState.board.length :=
      lt_of_getElem?_some h0occ
    rw [hshape, hcp, upb_pid1,
      applyPlacement_of_three pe0 qt _ i
        (getRandomEmoji [⟨1, c1, e1, pe0 :: qt⟩, ⟨2, c2, e2, q2⟩] 1 r) hqt,
      hcq]
    simp only [List.headD_cons]
    refine ⟨?_, ?_, ?_, ?_⟩
    · rw [List.getElem?_set_ne h0i,
        List.getElem?_set_eq_of_lt _ hilt]
    · rw [List.getElem?_set_eq_of_lt]
      rwa [List.length_set]
    · intro j hji hj0
      rw [List.getElem?_set_ne (Ne.symm hj0), List.getElem?_set_ne (Ne.symm hji)]
    · intro p hp hpid
      rcases (by simpa using hp :
          p = ⟨1, c1, e1, pe0 :: qt⟩ ∨ p = ⟨2, c2, e2, q2⟩) with rfl | rfl
      · exact absurd rfl hpid
      · simp
  · have hcq : currentQueue s = q2 := by
      simp only [currentQueue]
      rw [hshape, hcp]
      rfl
    obtain ⟨pe0, qt, rfl⟩ : ∃ pe0 qt, q2 = pe0 :: qt := by
      rw [hcq] at hq
      cases q2 with
      | nil => simp at hq
      | cons a l => exact ⟨a, l, rfl⟩
    have hqt : qt.length = 2 := by
      rw [hcq] at hq
      simp at hq
      omega
    have h0occ : s.gameState.board[pe0.position]? = some (some pe0.emoji) :=
      hmem pe0 (by simp)
    have h0i : pe0.position ≠ i := queue_pos_ne_click h0occ hcell
    have h0lt : pe0.position < s.gameState.board.length :=
      lt_of_getElem?_some h0occ
    rw [hshape, hcp, upb_pid2,
      applyPlacement_of_three pe0 qt _ i
        (getRandomEmoji [⟨1, c1, e1, q1⟩, ⟨2, c2, e2, pe0 :: qt⟩] 2 r) hqt,
      hcq]
    simp only [List.headD_cons]
    refine ⟨?_, ?_, ?_, ?_⟩
    · rw [List.getElem?_set_ne h0i,
        List.getElem?_set_eq_of_lt _ hilt]
    · rw [List.getElem?_set_eq_of_lt]
      rwa [List.length_set]
    · intro j hji hj0
      rw [List.getElem?_set_ne (Ne.symm hj0), List.getElem?_set_ne (Ne.symm hji)]
    · intro p hp hpid
      rcases (by simpa using hp :
          p = ⟨1, c1, e1, q1⟩ ∨ p = ⟨2, c2, e2, pe0 :: qt⟩) with rfl | rfl
      · simp
      · exact absurd rfl hpid

theorem reachable_alt6 : Reachable alt6 :=
  Reachable.step alt5 5 0 (Reachable.step demo4 3 0 (Reachable.step demo3 7 0
    (Reachable.step demo2 1 0 (Reachable.step demo1 8 0
      (Reachable.step demo0 0 0 reachable_demo0)))))

/-- C1 (witness): clicking cell 4 in `alt6` is player 1's 4th placement: the
oldest mark's cell (cell 0) is emptied, cell 4 now holds the drawn symbol,
an untouched cell (cell 8) is unchanged, and player 2's record survives
verbatim. -/
theorem fourth_placement_frame_witness :
    (handleCellClick alt6 4 0).gameState.board[4]? =
      some (some (getRandomEmoji alt6.players alt6.gameState.currentPlayer 0)) ∧
    (handleCellClick alt6 4 0).gameState.board[
      ((currentQueue alt6).headD ⟨0, ""⟩).position]? = some none ∧
    (handleCellClick alt6 4 0).gameState.board[8]? =
      alt6.gameState.board[8]? ∧
    alt6.players.getD 1 ⟨0, "", [], []⟩ ∈ (handleCellClick alt6 4 0).players := by
  have h := fourth_placement_frame alt6 4 0 reachable_alt6 (by decide) (by decide)
  exact ⟨h.1, h.2.1, h.2.2.1 8 (by decide) (by decide),
    h.2.2.2 (alt6.players.getD 1 ⟨0, "", [], []⟩) (by decide) (by decide)⟩
